import Mathlib

/-!
Verification of the seo-query-analyzer repository.

Shallow embedding of `src/utils/seo_analyzer.py` (class `SEOScorecardAnalyzer`:
`clean_text`, `analyze_query_in_elements`, `generate_scorecard`,
`calculate_metrics`) and of `src/utils/content_extractor.py`
(`ContentExtractor.batch_extract`).

Modelling conventions:
- Python strings are lists of Unicode code points (`PyStr := List Nat`);
  case folding and the whitespace class are modelled on the ASCII range.
- Dataframe cells are a tagged scalar type `Cell`: a string, the float NaN
  (which is how pandas represents a missing cell), a non-NaN float or an int
  (both carried by their `str()` rendering for the float, digits for the int),
  Python `None`, and a non-scalar object carried by its `str()` rendering.
- Dataframes are lists of records; the columns required by the validation in
  `src/app.py` (Query, Landing Page, Clicks, Impressions / Address, Title 1,
  Meta Description 1, H1-1) are always-present fields, the optional columns
  (H2-1..H2-5, Post 1) are `Option`-valued fields (`none` = column absent).
- Python dicts keyed by strings are association lists.
- Percentages are computed in `ℚ` (the float arithmetic of the source is
  modelled exactly at rational values).
-/

/-- Python strings, as lists of Unicode code points. -/
abbrev PyStr := List Nat

/-- The whitespace code points recognized by `str.split()` / `str.strip()`
(space, tab, newline, carriage return, vertical tab, form feed). -/
def isSpace (c : Nat) : Bool :=
  c == 32 || c == 9 || c == 10 || c == 13 || c == 11 || c == 12

/-- `str.lower` on a single code point (ASCII case folding). -/
def lowerChar (c : Nat) : Nat := if 65 ≤ c ∧ c ≤ 90 then c + 32 else c

/-- `str.lower`. -/
def pyLower (s : PyStr) : PyStr := s.map lowerChar

/-- `str.strip()`: drop leading and trailing whitespace. -/
def pyStrip (s : PyStr) : PyStr :=
  ((s.dropWhile isSpace).reverse.dropWhile isSpace).reverse

/-- Tokenizer for `str.split()`: `cur` holds the (reversed) non-whitespace
run currently being read. -/
def pySplitAux (cur : PyStr) : PyStr → List PyStr
  | [] => if cur = [] then [] else [cur.reverse]
  | c :: cs =>
    if isSpace c then
      if cur = [] then pySplitAux [] cs else cur.reverse :: pySplitAux [] cs
    else pySplitAux (c :: cur) cs

/-- `str.split()` with no separator: the maximal non-whitespace runs, in
order; empty tokens never occur. -/
def pySplit (s : PyStr) : List PyStr := pySplitAux [] s

/-- `' '.join(ws)` (32 is the code point of the space character). -/
def pyJoinSpace : List PyStr → PyStr
  | [] => []
  | [w] => w
  | w :: ws => w ++ 32 :: pyJoinSpace ws

/-- The string pipeline of `clean_text`:
`str(text).strip().lower()` followed by `' '.join(text.split())`. -/
def pyClean (s : PyStr) : PyStr := pyJoinSpace (pySplit (pyLower (pyStrip s)))

/-- A dataframe cell: a tagged Python scalar (or non-scalar) value.
`vnan` is the float NaN, which is how pandas represents a missing cell.
`vfloat` carries the `str()` rendering of a non-NaN float; `vobj` carries the
`str()` rendering of a non-scalar object. -/
inductive Cell where
  | vstr (s : PyStr)
  | vnan
  | vint (n : Int)
  | vfloat (s : PyStr)
  | vnone
  | vobj (s : PyStr)
deriving DecidableEq

/-- `pd.notna`: false exactly on NaN and None. -/
def notna : Cell → Bool
  | Cell.vnan => false
  | Cell.vnone => false
  | _ => true

/-- Code points of an ASCII string literal (helper for concrete inputs). -/
def strN (s : String) : PyStr := s.data.map (fun c => c.toNat)

/-- `str(x)` for a cell `x`; `none` when `clean_text`'s guard
`text is None or not isinstance(text, (str, int, float))` rejects the value.
`str(float('nan'))` is the three-character string `"nan"`. -/
def cellToStr : Cell → Option PyStr
  | Cell.vstr s => some s
  | Cell.vnan => some [110, 97, 110]
  | Cell.vint n => some (strN (toString n))
  | Cell.vfloat s => some s
  | Cell.vnone => none
  | Cell.vobj _ => none

/-- `SEOScorecardAnalyzer.clean_text` (seo_analyzer.py lines 22-37):
return `""` for `None` and non-scalars, otherwise
`' '.join(str(text).strip().lower().split())`. -/
def clean_text (c : Cell) : PyStr :=
  match cellToStr c with
  | none => []
  | some s => pyClean s

/-- `str(x)` as the total Python function (used by the `Post 1` branch of
`analyze_query_in_elements`, which calls `clean_text(str(row['Post 1']))`).
`str(None)` is `"None"`. -/
def strAny : Cell → PyStr
  | Cell.vstr s => s
  | Cell.vnan => [110, 97, 110]
  | Cell.vint n => strN (toString n)
  | Cell.vfloat s => s
  | Cell.vnone => strN "None"
  | Cell.vobj s => s

/-- Boolean prefix test on code-point lists (`==` on each position). -/
def pyStartsWith : PyStr → PyStr → Bool
  | [], _ => true
  | _ :: _, [] => false
  | a :: as, b :: bs => a == b && pyStartsWith as bs

/-- The Python substring operator `q in t`. -/
def isSubstr (q : PyStr) : PyStr → Bool
  | [] => pyStartsWith q []
  | b :: ts => pyStartsWith q (b :: ts) || isSubstr q ts

/-- One row of the analytics (GSC) export, with the columns required by the
validation in `src/app.py`. -/
structure QueryRecord where
  query : PyStr
  landing : PyStr
  clicks : Int
  impressions : Int
deriving DecidableEq

/-- One row of the crawl (Screaming Frog) export. `address`, `title`,
`metaDescription` and `h1` are the validated required columns; the `H2-1` ..
`H2-5` and `Post 1` columns are optional (`none` = column absent from the
export). A present cell may still be NaN. -/
structure SFRow where
  address : PyStr
  title : Cell
  metaDescription : Cell
  h1 : Cell
  h21 : Option Cell
  h22 : Option Cell
  h23 : Option Cell
  h24 : Option Cell
  h25 : Option Cell
  post1 : Option Cell
deriving DecidableEq

/-- The five boolean entries of a (non-empty) mapping returned by
`analyze_query_in_elements`. -/
structure ElemChecks where
  title : Bool
  metaDescription : Bool
  h1 : Bool
  h2s : Bool
  content : Bool
deriving DecidableEq

/-- `results[element] = query in text if text else False` with
`text = clean_text(row[column])` (seo_analyzer.py lines 73-76). -/
def elemCheck (q : PyStr) (c : Cell) : Bool :=
  let text := clean_text c
  if text = [] then false else isSubstr q text

/-- The `H2-1` .. `H2-5` slots of a crawl row, in order. -/
def h2Slots (row : SFRow) : List (Option Cell) :=
  [row.h21, row.h22, row.h23, row.h24, row.h25]

/-- The `h2_texts` list (seo_analyzer.py lines 79-82): the cleaned text of
every H2 column that is present and not NaN. -/
def h2Texts (row : SFRow) : List PyStr :=
  (h2Slots row).filterMap fun oc =>
    match oc with
    | some c => if notna c then some (clean_text c) else none
    | none => none

/-- The guard of the scraped-content branch (seo_analyzer.py lines 87-88):
`if url and scraped_content and url in scraped_content and
scraped_content[url]`; returns the scraped text when all four tests pass. -/
def liveContent (scraped : List (PyStr × Option PyStr)) (url : PyStr) : Option PyStr :=
  if url ≠ [] ∧ scraped ≠ [] then
    match scraped.lookup url with
    | some (some c) => if c ≠ [] then some c else none
    | _ => none
  else none

/-- The `Post 1` fallback (seo_analyzer.py lines 92-96):
`clean_text(str(row['Post 1']))` when the column is present and not NaN,
otherwise the result is `False`. -/
def fallbackContent (q : PyStr) (row : SFRow) : Bool :=
  match row.post1 with
  | some p => if notna p then isSubstr q (pyClean (strAny p)) else false
  | none => false

/-- The `Content` entry (seo_analyzer.py lines 86-96). -/
def contentCheck (q : PyStr) (row : SFRow) (scraped : List (PyStr × Option PyStr)) : Bool :=
  match liveContent scraped row.address with
  | some c =>
    let cc := pyClean c
    if cc = [] then false else isSubstr q cc
  | none => fallbackContent q row

/-- `SEOScorecardAnalyzer.analyze_query_in_elements` (seo_analyzer.py lines
39-98). Returns `none` for the empty dict produced when the cleaned query is
empty; otherwise the mapping has exactly the five fixed keys (the validated
required columns `Title 1`, `Meta Description 1`, `H1-1` are always present
in the row). -/
def analyze_query_in_elements (query : Cell) (row : SFRow)
    (scraped : List (PyStr × Option PyStr)) : Option ElemChecks :=
  let q := clean_text query
  if q = [] then none
  else some {
    title := elemCheck q row.title
    metaDescription := elemCheck q row.metaDescription
    h1 := elemCheck q row.h1
    h2s := (h2Texts row).any fun t => !t.isEmpty && isSubstr q t
    content := contentCheck q row scraped }

/-- `ContentExtractor.batch_extract` (content_extractor.py lines 94-104):
`{url: self.extract_from_url(url) for url in urls}` — every URL becomes a
key; a failed extraction stores `None` under the key. The per-URL extraction
is abstracted as the function `f`. -/
def batch_extract (f : PyStr → Option PyStr) (urls : List PyStr) :
    List (PyStr × Option PyStr) :=
  urls.map fun u => (u, f u)

/-- `pandas` first-occurrence deduplication (`Series.unique`), with the set
of already-seen values as accumulator. -/
def pdUniqueAux {α : Type} [DecidableEq α] (seen : List α) : List α → List α
  | [] => []
  | a :: l => if a ∈ seen then pdUniqueAux seen l else a :: pdUniqueAux (a :: seen) l

/-- `Series.unique`: distinct values in first-seen order. -/
def pdUnique {α : Type} [DecidableEq α] (l : List α) : List α := pdUniqueAux [] l

/-- `a` weakly precedes `b` in the composite descending ranking used by
`nlargest(10, ['Clicks', 'Impressions'])`: lexicographic comparison of
`(clicks, impressions)`. -/
def keyLe (a b : QueryRecord) : Bool :=
  decide (a.clicks < b.clicks ∨ (a.clicks = b.clicks ∧ a.impressions ≤ b.impressions))

/-- Insert `a` (an earlier input row) into an already-sorted later segment:
`a` goes in front of the first row whose key is at most a's key, so equal
keys keep the input order (`nlargest` with `keep='first'`). -/
def insertDesc (a : QueryRecord) : List QueryRecord → List QueryRecord
  | [] => [a]
  | b :: l => if keyLe b a then a :: b :: l else b :: insertDesc a l

/-- Stable sort of the analytics rows, descending by `(Clicks, Impressions)`. -/
def sortByKeyDesc : List QueryRecord → List QueryRecord
  | [] => []
  | a :: l => insertDesc a (sortByKeyDesc l)

/-- `gsc_df.nlargest(10, ['Clicks', 'Impressions'])['Query'].unique()`
(seo_analyzer.py line 121): the 10 top-ranked ROWS are taken first, then the
query strings are deduplicated in first-seen order. -/
def top_queries (gsc : List QueryRecord) : List PyStr :=
  pdUnique (((sortByKeyDesc gsc).take 10).map fun r => r.query)

/-- `gsc_df[gsc_df['Query'] == query]['Landing Page'].unique()`
(seo_analyzer.py line 134). -/
def queryUrls (gsc : List QueryRecord) (q : PyStr) : List PyStr :=
  pdUnique ((gsc.filter fun r => decide (r.query = q)).map fun r => r.landing)

/-- The `scraped_content` dict (seo_analyzer.py lines 124-127): empty unless
scraping is enabled and an extractor is configured, otherwise one
`batch_extract` over the distinct landing pages of the selected queries. -/
def scrapedOf (gsc : List QueryRecord) (extractor : Option (PyStr → Option PyStr))
    (scrape_urls : Bool) (top : List PyStr) : List (PyStr × Option PyStr) :=
  match scrape_urls, extractor with
  | true, some f =>
    batch_extract f
      (pdUnique ((gsc.filter fun r => decide (r.query ∈ top)).map fun r => r.landing))
  | _, _ => []

/-- One entry of the `results` list (seo_analyzer.py lines 148-153):
`{'Query': query, 'URL': url, **element_checks}`. `elems = none` models the
row produced when `element_checks` is the empty dict. -/
structure ResultRow where
  query : PyStr
  url : PyStr
  elems : Option ElemChecks
deriving DecidableEq

/-- The inner loop of `generate_scorecard` (seo_analyzer.py lines 136-153):
for each URL of the query, join on `Address` string equality, take the first
matching crawl row, and append one result row; no match appends nothing. -/
def rowsForQuery (sf : List SFRow) (scraped : List (PyStr × Option PyStr))
    (q : PyStr) : List PyStr → List ResultRow
  | [] => []
  | u :: us =>
    match (sf.filter fun r => decide (r.address = u)).head? with
    | some row =>
      ⟨q, u, analyze_query_in_elements (Cell.vstr q) row scraped⟩ ::
        rowsForQuery sf scraped q us
    | none => rowsForQuery sf scraped q us

/-- The outer loop of `generate_scorecard` (seo_analyzer.py lines 132-153). -/
def scorecardLoop (gsc : List QueryRecord) (sf : List SFRow)
    (scraped : List (PyStr × Option PyStr)) : List PyStr → List ResultRow
  | [] => []
  | q :: qs => rowsForQuery sf scraped q (queryUrls gsc q) ++ scorecardLoop gsc sf scraped qs

/-- `SEOScorecardAnalyzer.generate_scorecard` (seo_analyzer.py lines
100-155). -/
def generate_scorecard (gsc : List QueryRecord) (sf : List SFRow)
    (extractor : Option (PyStr → Option PyStr)) (scrape_urls : Bool) : List ResultRow :=
  if gsc = [] ∨ sf = [] then []
  else scorecardLoop gsc sf (scrapedOf gsc extractor scrape_urls (top_queries gsc)) (top_queries gsc)

/-- The metrics dict (seo_analyzer.py lines 157-185). A coverage field is
`none` when the corresponding column does not exist in the results dataframe
(no generated row carries the element keys). -/
structure Metrics where
  total_queries : Nat
  total_urls : Nat
  title_coverage : Option ℚ
  meta_description_coverage : Option ℚ
  h1_coverage : Option ℚ
  h2s_coverage : Option ℚ
  content_coverage : Option ℚ
  overall_score : ℚ
deriving DecidableEq

/-- Number of result rows that carry the element columns (rows whose dict had
the five element keys); the other rows hold NaN in those columns. -/
def numElemRows (rows : List ResultRow) : Nat :=
  (rows.filter fun r => r.elems.isSome).length

/-- Number of result rows whose element mapping is present and has `f` true. -/
def numTrueRows (f : ElemChecks → Bool) (rows : List ResultRow) : Nat :=
  (rows.filter fun r =>
    match r.elems with
    | some e => f e
    | none => false).length

/-- `results_df[element].mean() * 100` (seo_analyzer.py line 179): pandas
`mean` skips NaN cells, so the denominator is the number of rows that carry
the element keys; `none` when the column does not exist. -/
def coverage (f : ElemChecks → Bool) (rows : List ResultRow) : Option ℚ :=
  if numElemRows rows = 0 then none
  else some (((numTrueRows f rows : ℚ) / (numElemRows rows : ℚ)) * 100)

/-- `SEOScorecardAnalyzer.calculate_metrics` (seo_analyzer.py lines 157-185):
`{}` for an empty results dataframe, otherwise distinct counts, one coverage
per existing element column, and `overall_score` = sum over the five elements
of `metrics.get(..., 0)` divided by 5. -/
def calculate_metrics (rows : List ResultRow) : Option Metrics :=
  if rows = [] then none
  else
    let ct := coverage (fun e => e.title) rows
    let cm := coverage (fun e => e.metaDescription) rows
    let ch := coverage (fun e => e.h1) rows
    let ch2 := coverage (fun e => e.h2s) rows
    let cc := coverage (fun e => e.content) rows
    some {
      total_queries := (pdUnique (rows.map fun r => r.query)).length
      total_urls := (pdUnique (rows.map fun r => r.url)).length
      title_coverage := ct
      meta_description_coverage := cm
      h1_coverage := ch
      h2s_coverage := ch2
      content_coverage := cc
      overall_score := (ct.getD 0 + cm.getD 0 + ch.getD 0 + ch2.getD 0 + cc.getD 0) / 5 }

example : pyClean (strN "  Best RUNNING   shoes ") = strN "best running shoes" := by decide
example : isSubstr (strN "running shoes") (strN "best running shoes online") = true := by decide
example : clean_text Cell.vnan = strN "nan" := by decide

/-! ### The boolean substring operator agrees with `List.IsInfix` -/

theorem pyStartsWith_iff (q t : PyStr) : pyStartsWith q t = true ↔ q <+: t := by
  induction q generalizing t with
  | nil => simp [pyStartsWith]
  | cons a as ih =>
    cases t with
    | nil => simp [pyStartsWith]
    | cons b bs => simp [pyStartsWith, ih, List.cons_prefix_cons]

theorem isSubstr_iff (q t : PyStr) : isSubstr q t = true ↔ q <:+: t := by
  induction t with
  | nil => simp [isSubstr, pyStartsWith_iff]
  | cons b ts ih => simp [isSubstr, pyStartsWith_iff, ih, List.infix_cons_iff]

/-! ### Shape of the strings produced by `clean_text` -/

theorem lowerChar_idem (c : Nat) : lowerChar (lowerChar c) = lowerChar c := by
  by_cases h : 65 ≤ c ∧ c ≤ 90
  · have h1 : lowerChar c = c + 32 := if_pos h
    have h2 : lowerChar (c + 32) = c + 32 := if_neg (by omega)
    rw [h1, h2]
  · have h1 : lowerChar c = c := if_neg h
    rw [h1, h1]

theorem lowerChar_of_mem_pyLower {c : Nat} {s : PyStr} (h : c ∈ pyLower s) :
    lowerChar c = c := by
  obtain ⟨d, _, rfl⟩ := List.mem_map.1 h
  exact lowerChar_idem d

theorem pyLower_eq_self {s : PyStr} (h : ∀ c ∈ s, lowerChar c = c) : pyLower s = s := by
  induction s with
  | nil => rfl
  | cons a l ih =>
    have ha := h a (by simp)
    have hl := ih fun c hc => h c (by simp [hc])
    simp only [pyLower, List.map_cons] at hl ⊢
    rw [ha, hl]

/-- Every token produced by the tokenizer is non-empty, whitespace-free, and
made of characters of the accumulator or of the remaining input. -/
theorem pySplitAux_mem {l : PyStr} : ∀ {cur : PyStr},
    (∀ c ∈ cur, isSpace c = false) → ∀ {w : PyStr}, w ∈ pySplitAux cur l →
    w ≠ [] ∧ ∀ c ∈ w, isSpace c = false ∧ (c ∈ cur ∨ c ∈ l) := by
  induction l with
  | nil =>
    intro cur hcur w hw
    by_cases hc : cur = []
    · simp [pySplitAux, hc] at hw
    · simp [pySplitAux, hc] at hw
      subst hw
      refine ⟨by simpa using hc, fun c hc2 => ?_⟩
      have : c ∈ cur := by simpa using hc2
      exact ⟨hcur c this, Or.inl this⟩
  | cons a l ih =>
    intro cur hcur w hw
    by_cases ha : isSpace a = true
    · by_cases hc : cur = []
      · rw [pySplitAux, if_pos ha, if_pos hc] at hw
        obtain ⟨h1, h2⟩ := ih (by simp) hw
        exact ⟨h1, fun c hc2 => ⟨(h2 c hc2).1, Or.inr (by
          rcases (h2 c hc2).2 with h | h
          · simp at h
          · simp [h])⟩⟩
      · rw [pySplitAux, if_pos ha, if_neg hc] at hw
        rcases List.mem_cons.1 hw with hw | hw
        · subst hw
          refine ⟨by simpa using hc, fun c hc2 => ?_⟩
          have : c ∈ cur := by simpa using hc2
          exact ⟨hcur c this, Or.inl this⟩
        · obtain ⟨h1, h2⟩ := ih (by simp) hw
          exact ⟨h1, fun c hc2 => ⟨(h2 c hc2).1, Or.inr (by
            rcases (h2 c hc2).2 with h | h
            · simp at h
            · simp [h])⟩⟩
    · rw [pySplitAux, if_neg ha] at hw
      have hcur2 : ∀ c ∈ a :: cur, isSpace c = false := by
        intro c hc
        rcases List.mem_cons.1 hc with rfl | hc
        · simpa using ha
        · exact hcur c hc
      obtain ⟨h1, h2⟩ := ih hcur2 hw
      refine ⟨h1, fun c hc2 => ⟨(h2 c hc2).1, ?_⟩⟩
      rcases (h2 c hc2).2 with h | h
      · rcases List.mem_cons.1 h with rfl | h
        · exact Or.inr (by simp)
        · exact Or.inl h
      · exact Or.inr (by simp [h])

/-- Feeding a whitespace-free run into the tokenizer accumulates it. -/
theorem pySplitAux_append {w : PyStr} (hw : ∀ c ∈ w, isSpace c = false) :
    ∀ (cur l : PyStr), pySplitAux cur (w ++ l) = pySplitAux (w.reverse ++ cur) l := by
  induction w with
  | nil => intro cur l; simp
  | cons a as ih =>
    intro cur l
    have ha : isSpace a = false := hw a (by simp)
    rw [List.cons_append, pySplitAux, if_neg (by simp [ha])]
    rw [ih (fun c hc => hw c (by simp [hc])) (a :: cur) l]
    simp

/-- Splitting a space-joined list of non-empty whitespace-free tokens gives
the tokens back. -/
theorem pySplit_join : ∀ {ws : List PyStr},
    (∀ w ∈ ws, w ≠ [] ∧ ∀ c ∈ w, isSpace c = false) →
    pySplit (pyJoinSpace ws) = ws := by
  intro ws
  induction ws with
  | nil => intro _; rfl
  | cons w ws ih =>
    intro h
    obtain ⟨hne, hsp⟩ := h w (by simp)
    cases ws with
    | nil =>
      show pySplitAux [] (pyJoinSpace [w]) = [w]
      have : pyJoinSpace [w] = w ++ [] := by simp [pyJoinSpace]
      rw [this, pySplitAux_append hsp, List.append_nil, pySplitAux]
      simp [hne]
    | cons w2 ws2 =>
      show pySplitAux [] (w ++ 32 :: pyJoinSpace (w2 :: ws2)) = w :: w2 :: ws2
      rw [pySplitAux_append hsp, List.append_nil, pySplitAux]
      have h32 : isSpace 32 = true := by decide
      rw [if_pos h32, if_neg (by simpa using hne)]
      rw [List.reverse_reverse]
      have := ih fun v hv => h v (by simp [hv])
      rw [show pySplitAux ([] : PyStr) (pyJoinSpace (w2 :: ws2)) = w2 :: ws2 from this]

theorem mem_pyJoinSpace {c : Nat} : ∀ {ws : List PyStr}, c ∈ pyJoinSpace ws →
    c = 32 ∨ ∃ w ∈ ws, c ∈ w := by
  intro ws
  induction ws with
  | nil => intro h; simp [pyJoinSpace] at h
  | cons w ws ih =>
    intro h
    cases ws with
    | nil => exact Or.inr ⟨w, by simp, h⟩
    | cons w2 ws2 =>
      rcases List.mem_append.1 h with h1 | h1
      · exact Or.inr ⟨w, by simp, h1⟩
      · rcases List.mem_cons.1 h1 with rfl | h2
        · exact Or.inl rfl
        · rcases ih h2 with h3 | ⟨v, hv, hcv⟩
          · exact Or.inl h3
          · exact Or.inr ⟨v, by simp [List.mem_cons.1 hv], hcv⟩

/-- A space-join of non-empty tokens starts with a character of its first
token. -/
theorem pyJoinSpace_head {w : PyStr} (ws : List PyStr) (hne : w ≠ []) :
    ∃ c t, pyJoinSpace (w :: ws) = c :: t ∧ c ∈ w := by
  cases w with
  | nil => exact absurd rfl hne
  | cons c cs =>
    cases ws with
    | nil => exact ⟨c, cs, rfl, by simp⟩
    | cons w2 ws2 =>
      exact ⟨c, cs ++ 32 :: pyJoinSpace (w2 :: ws2), by simp [pyJoinSpace], by simp⟩

theorem dropWhile_pyJoinSpace {ws : List PyStr}
    (h : ∀ w ∈ ws, w ≠ [] ∧ ∀ c ∈ w, isSpace c = false) :
    (pyJoinSpace ws).dropWhile isSpace = pyJoinSpace ws := by
  cases ws with
  | nil => rfl
  | cons w ws =>
    obtain ⟨c, t, heq, hc⟩ := pyJoinSpace_head ws (h w (by simp)).1
    rw [heq, List.dropWhile_cons_of_neg]
    simp [(h w (by simp)).2 c hc]

theorem pyJoinSpace_cons (w w2 : PyStr) (ws : List PyStr) :
    pyJoinSpace (w :: w2 :: ws) = w ++ 32 :: pyJoinSpace (w2 :: ws) := rfl

theorem pyJoinSpace_append_single {ws : List PyStr} (hws : ws ≠ []) (w : PyStr) :
    pyJoinSpace (ws ++ [w]) = pyJoinSpace ws ++ 32 :: w := by
  induction ws with
  | nil => exact absurd rfl hws
  | cons v ws ih =>
    cases ws with
    | nil => rfl
    | cons v2 ws2 =>
      have h1 : pyJoinSpace ((v :: v2 :: ws2) ++ [w])
          = v ++ 32 :: pyJoinSpace ((v2 :: ws2) ++ [w]) := rfl
      rw [h1, ih (by simp), pyJoinSpace_cons]
      simp

theorem pyJoinSpace_reverse : ∀ (ws : List PyStr),
    (pyJoinSpace ws).reverse = pyJoinSpace ((ws.map List.reverse).reverse) := by
  intro ws
  induction ws with
  | nil => rfl
  | cons w ws ih =>
    cases ws with
    | nil => simp [pyJoinSpace]
    | cons w2 ws2 =>
      rw [pyJoinSpace_cons, List.map_cons, List.reverse_cons]
      rw [pyJoinSpace_append_single (by simp)]
      rw [← ih]
      simp

theorem pyStrip_pyJoinSpace {ws : List PyStr}
    (h : ∀ w ∈ ws, w ≠ [] ∧ ∀ c ∈ w, isSpace c = false) :
    pyStrip (pyJoinSpace ws) = pyJoinSpace ws := by
  have hrev : ∀ w ∈ (ws.map List.reverse).reverse, w ≠ [] ∧ ∀ c ∈ w, isSpace c = false := by
    intro w hw
    rw [List.mem_reverse, List.mem_map] at hw
    obtain ⟨v, hv, rfl⟩ := hw
    exact ⟨by simpa using (h v hv).1, fun c hc => (h v hv).2 c (by simpa using hc)⟩
  unfold pyStrip
  rw [dropWhile_pyJoinSpace h, pyJoinSpace_reverse, dropWhile_pyJoinSpace hrev,
    ← pyJoinSpace_reverse, List.reverse_reverse]

/-- No two adjacent characters are both whitespace. -/
def noDoubleSpace : PyStr → Bool
  | [] => true
  | [_] => true
  | a :: b :: t => (!(isSpace a && isSpace b)) && noDoubleSpace (b :: t)

theorem noDoubleSpace_of_nonspace {w : PyStr} (hw : ∀ c ∈ w, isSpace c = false) :
    noDoubleSpace w = true := by
  induction w with
  | nil => rfl
  | cons a as ih =>
    cases as with
    | nil => rfl
    | cons b t =>
      rw [noDoubleSpace]
      simp only [Bool.and_eq_true, Bool.not_eq_true']
      exact ⟨by simp [hw a (by simp)], ih fun c hc => hw c (by simp [List.mem_cons.1 hc])⟩

theorem noDoubleSpace_append {w r : PyStr} (hw : ∀ c ∈ w, isSpace c = false)
    (hr : noDoubleSpace r = true) : noDoubleSpace (w ++ r) = true := by
  induction w with
  | nil => simpa using hr
  | cons a as ih =>
    have ha : isSpace a = false := hw a (by simp)
    have hrest := ih fun c hc => hw c (by simp [hc])
    rw [List.cons_append]
    cases hx : as ++ r with
    | nil => rfl
    | cons b t =>
      rw [noDoubleSpace, ← hx, hrest]
      simp [ha]

theorem noDoubleSpace_pyJoinSpace : ∀ {ws : List PyStr},
    (∀ w ∈ ws, w ≠ [] ∧ ∀ c ∈ w, isSpace c = false) →
    noDoubleSpace (pyJoinSpace ws) = true := by
  intro ws
  induction ws with
  | nil => intro _; rfl
  | cons w ws ih =>
    intro h
    cases ws with
    | nil => exact noDoubleSpace_of_nonspace (h w (by simp)).2
    | cons w2 ws2 =>
      show noDoubleSpace (w ++ 32 :: pyJoinSpace (w2 :: ws2)) = true
      refine noDoubleSpace_append (h w (by simp)).2 ?_
      obtain ⟨c, t, heq, hc⟩ := pyJoinSpace_head ws2 (h w2 (by simp)).1
      rw [heq, noDoubleSpace]
      have hns : isSpace c = false := (h w2 (by simp)).2 c hc
      have := ih fun v hv => h v (by simp [List.mem_cons.1 hv])
      rw [heq] at this
      rw [this]
      simp [hns]

/-- The tokens underlying `pyClean s` are non-empty, whitespace-free, and
fixed by case folding. -/
theorem pyClean_words (s : PyStr) :
    ∀ w ∈ pySplit (pyLower (pyStrip s)),
      w ≠ [] ∧ ∀ c ∈ w, isSpace c = false ∧ lowerChar c = c := by
  intro w hw
  obtain ⟨h1, h2⟩ := pySplitAux_mem (l := pyLower (pyStrip s)) (by simp) hw
  refine ⟨h1, fun c hc => ⟨(h2 c hc).1, ?_⟩⟩
  rcases (h2 c hc).2 with h | h
  · simp at h
  · exact lowerChar_of_mem_pyLower h

theorem pyClean_idem (s : PyStr) : pyClean (pyClean s) = pyClean s := by
  have hgood : ∀ w ∈ pySplit (pyLower (pyStrip s)),
      w ≠ [] ∧ ∀ c ∈ w, isSpace c = false :=
    fun w hw => ⟨(pyClean_words s w hw).1, fun c hc => ((pyClean_words s w hw).2 c hc).1⟩
  have hlow : ∀ c ∈ pyJoinSpace (pySplit (pyLower (pyStrip s))), lowerChar c = c := by
    intro c hc
    rcases mem_pyJoinSpace hc with rfl | ⟨w, hw, hcw⟩
    · decide
    · exact ((pyClean_words s w hw).2 c hcw).2
  show pyClean (pyJoinSpace (pySplit (pyLower (pyStrip s)))) = _
  unfold pyClean
  rw [pyStrip_pyJoinSpace hgood, pyLower_eq_self hlow, pySplit_join hgood]

theorem pyClean_good (s : PyStr) : ∀ w ∈ pySplit (pyLower (pyStrip s)),
    w ≠ [] ∧ ∀ c ∈ w, isSpace c = false :=
  fun w hw => ⟨(pyClean_words s w hw).1, fun c hc => ((pyClean_words s w hw).2 c hc).1⟩

theorem pyStrip_pyClean (s : PyStr) : pyStrip (pyClean s) = pyClean s :=
  pyStrip_pyJoinSpace (pyClean_good s)

theorem pyLower_pyClean (s : PyStr) : pyLower (pyClean s) = pyClean s := by
  refine pyLower_eq_self ?_
  intro c hc
  rcases mem_pyJoinSpace hc with rfl | ⟨w, hw, hcw⟩
  · decide
  · exact ((pyClean_words s w hw).2 c hcw).2

theorem noDoubleSpace_pyClean (s : PyStr) : noDoubleSpace (pyClean s) = true :=
  noDoubleSpace_pyJoinSpace (pyClean_good s)

theorem space_mem_pyClean (s : PyStr) : ∀ c ∈ pyClean s, isSpace c = true → c = 32 := by
  intro c hc hsp
  rcases mem_pyJoinSpace hc with rfl | ⟨w, hw, hcw⟩
  · rfl
  · rw [((pyClean_good s) w hw).2 c hcw] at hsp
    cases hsp

/-- Every value of `clean_text` is the empty string or a `pyClean` image. -/
theorem clean_text_cases (v : Cell) :
    clean_text v = [] ∨ ∃ s, clean_text v = pyClean s := by
  cases v with
  | vstr s => exact Or.inr ⟨s, rfl⟩
  | vnan => exact Or.inr ⟨[110, 97, 110], rfl⟩
  | vint n => exact Or.inr ⟨strN (toString n), rfl⟩
  | vfloat s => exact Or.inr ⟨s, rfl⟩
  | vnone => exact Or.inl rfl
  | vobj s => exact Or.inl rfl

/-- C9: `clean_text` is a total normalizer: absent (`None`) or non-scalar
input yields the empty string; every output is already in normal form (no
leading or trailing whitespace, fixed under case folding, no two adjacent
whitespace characters, every whitespace character the single space 32); and
the function is idempotent — cleaning an already-cleaned value returns it
unchanged (totality is inherent: the Lean embedding is a total function,
mirroring the fact that `clean_text` cannot raise). -/
theorem c9_clean_text_normalizer :
    (∀ v : Cell, clean_text (Cell.vstr (clean_text v)) = clean_text v)
    ∧ clean_text Cell.vnone = []
    ∧ (∀ s, clean_text (Cell.vobj s) = [])
    ∧ (∀ v : Cell, pyStrip (clean_text v) = clean_text v)
    ∧ (∀ v : Cell, pyLower (clean_text v) = clean_text v)
    ∧ (∀ v : Cell, noDoubleSpace (clean_text v) = true)
    ∧ (∀ v : Cell, ∀ c ∈ clean_text v, isSpace c = true → c = 32) := by
  refine ⟨fun v => ?_, rfl, fun s => rfl, fun v => ?_, fun v => ?_, fun v => ?_,
    fun v c hc hsp => ?_⟩
  · rcases clean_text_cases v with h | ⟨s, h⟩
    · rw [h]; rfl
    · rw [h]
      exact pyClean_idem s
  · rcases clean_text_cases v with h | ⟨s, h⟩
    · rw [h]; rfl
    · rw [h]; exact pyStrip_pyClean s
  · rcases clean_text_cases v with h | ⟨s, h⟩
    · rw [h]; rfl
    · rw [h]; exact pyLower_pyClean s
  · rcases clean_text_cases v with h | ⟨s, h⟩
    · rw [h]; rfl
    · rw [h]; exact noDoubleSpace_pyClean s
  · rcases clean_text_cases v with h | ⟨s, h⟩
    · rw [h] at hc; cases hc
    · rw [h] at hc; exact space_mem_pyClean s c hc hsp

/-- Witness for C9 at a concrete input: idempotence on the raw string
`" A  b "`, and the space-character conjunct applied to the cleaned form of
`"a b"`. -/
theorem c9_clean_text_normalizer_witness :
    clean_text (Cell.vstr (clean_text (Cell.vstr (strN " A  b "))))
      = clean_text (Cell.vstr (strN " A  b "))
    ∧ (32 : Nat) = 32 :=
  ⟨c9_clean_text_normalizer.1 (Cell.vstr (strN " A  b ")),
   c9_clean_text_normalizer.2.2.2.2.2.2 (Cell.vstr (strN "a b")) 32 (by decide) (by decide)⟩

/-! ### `pandas` first-occurrence deduplication -/

theorem mem_of_mem_pdUniqueAux {α : Type} [DecidableEq α] :
    ∀ {l seen : List α} {x : α}, x ∈ pdUniqueAux seen l → x ∈ l := by
  intro l
  induction l with
  | nil => intro seen x h; simp [pdUniqueAux] at h
  | cons a l ih =>
    intro seen x h
    by_cases ha : a ∈ seen
    · rw [pdUniqueAux, if_pos ha] at h
      exact List.mem_cons_of_mem a (ih h)
    · rw [pdUniqueAux, if_neg ha] at h
      rcases List.mem_cons.1 h with rfl | h
      · exact List.mem_cons_self x l
      · exact List.mem_cons_of_mem a (ih h)

theorem length_pdUniqueAux {α : Type} [DecidableEq α] :
    ∀ {l seen : List α}, (pdUniqueAux seen l).length ≤ l.length := by
  intro l
  induction l with
  | nil => intro seen; simp [pdUniqueAux]
  | cons a l ih =>
    intro seen
    by_cases ha : a ∈ seen
    · rw [pdUniqueAux, if_pos ha]
      exact Nat.le_succ_of_le ih
    · rw [pdUniqueAux, if_neg ha]
      simpa using ih

theorem nodup_pdUniqueAux {α : Type} [DecidableEq α] :
    ∀ {l seen : List α}, (pdUniqueAux seen l).Nodup ∧ ∀ x ∈ pdUniqueAux seen l, x ∉ seen := by
  intro l
  induction l with
  | nil => intro seen; simp [pdUniqueAux]
  | cons a l ih =>
    intro seen
    by_cases ha : a ∈ seen
    · rw [pdUniqueAux, if_pos ha]
      exact ih
    · rw [pdUniqueAux, if_neg ha]
      obtain ⟨h1, h2⟩ := @ih (a :: seen)
      refine ⟨List.nodup_cons.2 ⟨fun hmem => ?_, h1⟩, fun x hx => ?_⟩
      · exact (h2 a hmem) (List.mem_cons_self a seen)
      · rcases List.mem_cons.1 hx with rfl | hx
        · exact ha
        · exact fun hseen => (h2 x hx) (List.mem_cons_of_mem a hseen)

theorem pdUnique_nodup {α : Type} [DecidableEq α] (l : List α) : (pdUnique l).Nodup :=
  nodup_pdUniqueAux.1

theorem pdUnique_subset {α : Type} [DecidableEq α] {l : List α} {x : α}
    (h : x ∈ pdUnique l) : x ∈ l :=
  mem_of_mem_pdUniqueAux h

theorem pdUnique_length_le {α : Type} [DecidableEq α] (l : List α) :
    (pdUnique l).length ≤ l.length :=
  length_pdUniqueAux

theorem pdUnique_complete {α : Type} [DecidableEq α] :
    ∀ {l seen : List α} {x : α}, x ∈ l → x ∉ seen → x ∈ pdUniqueAux seen l := by
  intro l
  induction l with
  | nil => intro seen x h; cases h
  | cons a l ih =>
    intro seen x hx hseen
    by_cases ha : a ∈ seen
    · rw [pdUniqueAux, if_pos ha]
      rcases List.mem_cons.1 hx with rfl | hx
      · exact absurd ha hseen
      · exact ih hx hseen
    · rw [pdUniqueAux, if_neg ha]
      rcases List.mem_cons.1 hx with rfl | hx
      · exact List.mem_cons_self x _
      · by_cases hxa : x = a
        · subst hxa; exact List.mem_cons_self x _
        · refine List.mem_cons_of_mem a (ih hx ?_)
          simp [hseen, hxa]

theorem pdUnique_mem_iff {α : Type} [DecidableEq α] {l : List α} {x : α} :
    x ∈ pdUnique l ↔ x ∈ l :=
  ⟨pdUnique_subset, fun h => pdUnique_complete h (by simp)⟩

/-! ### The stable descending sort used for `nlargest` -/

theorem mem_insertDesc {a x : QueryRecord} : ∀ {l}, x ∈ insertDesc a l ↔ x = a ∨ x ∈ l := by
  intro l
  induction l with
  | nil => simp [insertDesc]
  | cons b l ih =>
    rw [insertDesc]
    by_cases h : keyLe b a = true
    · simp [h]
    · simp only [if_neg h, List.mem_cons, ih]
      tauto

theorem mem_sortByKeyDesc {x : QueryRecord} : ∀ {l}, x ∈ sortByKeyDesc l ↔ x ∈ l := by
  intro l
  induction l with
  | nil => simp [sortByKeyDesc]
  | cons a l ih => simp [sortByKeyDesc, mem_insertDesc, ih]

/-- Every selected query string occurs as a `Query` value of the analytics
input. -/
theorem mem_top_queries {gsc : List QueryRecord} {q : PyStr}
    (h : q ∈ top_queries gsc) : q ∈ gsc.map fun r => r.query := by
  have h1 := pdUnique_subset h
  obtain ⟨r, hr, rfl⟩ := List.mem_map.1 h1
  exact List.mem_map.2 ⟨r, mem_sortByKeyDesc.1 (List.mem_of_mem_take hr), rfl⟩

/-- Analytics input refuting C1: 12 rows and 11 distinct queries, but the
duplicated top query `"a"` occupies two of the 10 rows that
`nlargest(10, ...)` returns, so after `.unique()` only 9 distinct queries
remain. Queries are the one-letter strings `"a"` (97) .. `"k"` (107); the
landing page is `"u"` (117). -/
def c1CounterGsc : List QueryRecord :=
  [⟨[97], [117], 10, 0⟩, ⟨[97], [117], 10, 0⟩,
   ⟨[98], [117], 9, 0⟩, ⟨[99], [117], 8, 0⟩, ⟨[100], [117], 7, 0⟩,
   ⟨[101], [117], 6, 0⟩, ⟨[102], [117], 5, 0⟩, ⟨[103], [117], 4, 0⟩,
   ⟨[104], [117], 3, 0⟩, ⟨[105], [117], 2, 0⟩, ⟨[106], [117], 1, 0⟩,
   ⟨[107], [117], 0, 0⟩]

/-- C1 (counterexample): the input `c1CounterGsc` has at least 10 (in fact
11) distinct queries, yet the selection does not contain exactly 10 distinct
queries — `nlargest` truncates to 10 ROWS before `.unique()` deduplicates,
refuting the claim that deduplication happens before truncation. -/
theorem c1_counterexample :
    10 ≤ (pdUnique (c1CounterGsc.map fun r => r.query)).length
    ∧ (top_queries c1CounterGsc).length ≠ 10 := by decide

/-- The spec's own query-selection example:
`[("a",10,100), ("b",20,50), ("c",20,200), ("a",10,100)]`. -/
def c1SpecExampleGsc : List QueryRecord :=
  [⟨strN "a", strN "u", 10, 100⟩, ⟨strN "b", strN "u", 20, 50⟩,
   ⟨strN "c", strN "u", 20, 200⟩, ⟨strN "a", strN "u", 10, 100⟩]

/-- C1 (amended): the selection takes the top 10 ROWS ranked descending by
`(Clicks, Impressions)` (composite key, stable ties by input order, a query
represented by its highest-ranking occurrence) and only then deduplicates
the query strings in first-seen order; hence the selected queries are
distinct, at most 10, and all drawn from the input — but possibly fewer than
10 even when the input holds at least 10 distinct queries. On the spec's
example the selection is `["c", "b", "a"]`. -/
theorem c1_top_queries_amended :
    (∀ gsc : List QueryRecord, (top_queries gsc).Nodup
      ∧ (top_queries gsc).length ≤ 10
      ∧ ∀ q ∈ top_queries gsc, q ∈ gsc.map fun r => r.query)
    ∧ top_queries c1SpecExampleGsc = [strN "c", strN "b", strN "a"] := by
  constructor
  · intro gsc
    refine ⟨pdUnique_nodup _, ?_, fun q hq => mem_top_queries hq⟩
    have h2 : (((sortByKeyDesc gsc).take 10).map fun r => r.query).length ≤ 10 := by
      rw [List.length_map, List.length_take]
      omega
    exact le_trans (pdUnique_length_le _) h2
  · decide

/-- Witness for the amended C1 at the spec's example input. -/
theorem c1_top_queries_amended_witness :
    strN "c" ∈ c1SpecExampleGsc.map fun r => r.query :=
  (c1_top_queries_amended.1 c1SpecExampleGsc).2.2 (strN "c") (by decide)

/-- Crawl row whose required `Title 1`, `Meta Description 1` and `H1-1`
cells are all missing (NaN in pandas), with no optional columns; the address
is `"u"`. -/
def c2NanRow : SFRow :=
  ⟨[117], Cell.vnan, Cell.vnan, Cell.vnan, none, none, none, none, none, none⟩

/-- C2 (code bug, evaluation at the failing input): `clean_text` converts a
missing (NaN) cell to the literal three-letter string `"nan"` because
`float('nan')` passes the `isinstance(..., float)` guard, and the
Title/Meta/H1 branch has no `pd.notna` check (unlike the H2 and `Post 1`
branches). Hence the queries `"nan"` and `"a"` are both reported as matching
a missing Title, Meta Description and H1 — the claim says a missing field
never yields true. -/
theorem c2_missing_field_eval :
    analyze_query_in_elements (Cell.vstr (strN "nan")) c2NanRow []
      = some ⟨true, true, true, false, false⟩
    ∧ analyze_query_in_elements (Cell.vstr (strN "a")) c2NanRow []
      = some ⟨true, true, true, false, false⟩
    ∧ clean_text Cell.vnan = strN "nan" := by decide

/-- Analytics input with a single query consisting of one space character
(code point 32), landing on `"u"`. -/
def c3SpaceGsc : List QueryRecord := [⟨[32], [117], 1, 1⟩]

/-- Crawl export with a single row for address `"u"`. -/
def c3Sf : List SFRow :=
  [⟨[117], Cell.vstr [], Cell.vnan, Cell.vnan, none, none, none, none, none, none⟩]

/-- C3 (code bug, evaluation at the failing input): the whitespace-only
query normalizes to the empty string, so `analyze_query_in_elements` returns
the empty dict; `generate_scorecard` does NOT skip the query and still emits
a row whose field mapping is empty instead of having the five fixed field
names. -/
theorem c3_empty_query_row_eval :
    generate_scorecard c3SpaceGsc c3Sf none false = [⟨[32], [117], none⟩]
    ∧ clean_text (Cell.vstr [32]) = [] := by decide

/-- For a non-empty pattern, searching the empty string fails. -/
theorem isSubstr_nil_of_ne {q : PyStr} (h : q ≠ []) : isSubstr q [] = false := by
  cases q with
  | nil => exact absurd rfl h
  | cons a as => rfl

/-- C7: for any query with non-empty normalized form, the `H2s` entry of the
field mapping is true iff the normalized query is a substring of the
normalization of at least one H2 slot that is present (its column exists),
holds a non-missing value (not NaN), and has non-empty normalized text;
absent columns, NaN cells and slots whose normalization is empty are never
counted. -/
theorem c7_h2_any (q : Cell) (row : SFRow) (scraped : List (PyStr × Option PyStr))
    (hq : clean_text q ≠ []) :
    ∃ e, analyze_query_in_elements q row scraped = some e
      ∧ (e.h2s = true ↔ ∃ oc ∈ h2Slots row, ∃ c, oc = some c ∧ notna c = true
          ∧ clean_text c ≠ [] ∧ clean_text q <:+: clean_text c) := by
  refine ⟨⟨elemCheck (clean_text q) row.title,
           elemCheck (clean_text q) row.metaDescription,
           elemCheck (clean_text q) row.h1,
           (h2Texts row).any fun t => !t.isEmpty && isSubstr (clean_text q) t,
           contentCheck (clean_text q) row scraped⟩, ?_, ?_⟩
  · simp only [analyze_query_in_elements]
    rw [if_neg hq]
  · show ((h2Texts row).any fun t => !t.isEmpty && isSubstr (clean_text q) t) = true ↔ _
    constructor
    · intro h
      obtain ⟨t, ht, hbo⟩ := List.any_eq_true.1 h
      obtain ⟨oc, hoc, hmat⟩ := List.mem_filterMap.1 ht
      rw [Bool.and_eq_true] at hbo
      obtain ⟨hte, hsub⟩ := hbo
      cases oc with
      | none => cases hmat
      | some c =>
        replace hmat : (if notna c = true then some (clean_text c) else none) = some t := hmat
        by_cases hna : notna c = true
        · rw [if_pos hna] at hmat
          obtain rfl : clean_text c = t := Option.some.inj hmat
          refine ⟨some c, hoc, c, rfl, hna, ?_, (isSubstr_iff _ _).1 hsub⟩
          intro hnil
          rw [hnil] at hte
          cases hte
        · rw [if_neg hna] at hmat
          cases hmat
    · rintro ⟨oc, hoc, c, rfl, hna, hne, hinf⟩
      refine List.any_eq_true.2 ⟨clean_text c, List.mem_filterMap.2 ⟨some c, hoc, ?_⟩, ?_⟩
      · show (if notna c = true then some (clean_text c) else none) = some (clean_text c)
        rw [if_pos hna]
      · rw [Bool.and_eq_true]
        refine ⟨?_, (isSubstr_iff _ _).2 hinf⟩
        simpa [List.isEmpty_iff] using hne

/-- Modelled from the spec wording, for comparison with the code: the
fallback body field, when present (not absent, not NaN), is normalized and
substring-matched; otherwise false. -/
def fallbackSpecSide (cq : PyStr) (row : SFRow) : Bool :=
  match row.post1 with
  | some p => if notna p then isSubstr cq (clean_text p) else false
  | none => false

/-- Modelled from the spec wording, for comparison with the code: Content
precedence — (a) resolved live content for this URL, if present and
non-empty, is normalized and substring-matched (the fallback field is
ignored even when it contains the query); else (b) the fallback body field,
if present, is normalized and substring-matched; else (c) false. -/
def contentSpecPrecedence (cq : PyStr) (row : SFRow)
    (scraped : List (PyStr × Option PyStr)) : Bool :=
  match scraped.lookup row.address with
  | some (some c) => if c = [] then fallbackSpecSide cq row else isSubstr cq (pyClean c)
  | _ => fallbackSpecSide cq row

/-- On CSV-representable cells (no non-scalar objects), the code's fallback
branch `clean_text(str(row['Post 1']))` agrees with normalizing the field
itself. -/
theorem fallbackContent_eq_spec {cq : PyStr} {row : SFRow}
    (hscalar : ∀ s, row.post1 ≠ some (Cell.vobj s)) :
    fallbackContent cq row = fallbackSpecSide cq row := by
  unfold fallbackContent fallbackSpecSide
  cases hp : row.post1 with
  | none => rfl
  | some p =>
    cases p with
    | vstr s => rfl
    | vnan => rfl
    | vint n => rfl
    | vfloat s => rfl
    | vnone => rfl
    | vobj s => exact absurd hp (hscalar s)

/-- C5: for any query with non-empty normalized form and any page record
with a genuine (non-empty) URL whose fallback field is CSV-representable,
the Content entry follows the spec's precedence: non-empty resolved live
content for the page's URL wins (the fallback field is ignored even when it
contains the query); otherwise a present fallback body field decides by
substring match on its normalization; otherwise false. -/
theorem c5_content_precedence (q : Cell) (row : SFRow)
    (scraped : List (PyStr × Option PyStr)) (hq : clean_text q ≠ [])
    (haddr : row.address ≠ []) (hscalar : ∀ s, row.post1 ≠ some (Cell.vobj s)) :
    ∃ e, analyze_query_in_elements q row scraped = some e
      ∧ e.content = contentSpecPrecedence (clean_text q) row scraped := by
  refine ⟨⟨elemCheck (clean_text q) row.title,
           elemCheck (clean_text q) row.metaDescription,
           elemCheck (clean_text q) row.h1,
           (h2Texts row).any fun t => !t.isEmpty && isSubstr (clean_text q) t,
           contentCheck (clean_text q) row scraped⟩, ?_, ?_⟩
  · simp only [analyze_query_in_elements]
    rw [if_neg hq]
  · show contentCheck (clean_text q) row scraped
      = contentSpecPrecedence (clean_text q) row scraped
    by_cases hs : scraped = []
    · subst hs
      have h1 : liveContent [] row.address = none := by
        unfold liveContent
        rw [if_neg (by simp)]
      unfold contentCheck contentSpecPrecedence
      rw [h1]
      show fallbackContent (clean_text q) row = _
      rw [fallbackContent_eq_spec hscalar]
      rfl
    · cases hl : scraped.lookup row.address with
      | none =>
        have h1 : liveContent scraped row.address = none := by
          unfold liveContent
          rw [if_pos ⟨haddr, hs⟩, hl]
        unfold contentCheck contentSpecPrecedence
        rw [h1, hl]
        exact fallbackContent_eq_spec hscalar
      | some oc =>
        cases oc with
        | none =>
          have h1 : liveContent scraped row.address = none := by
            unfold liveContent
            rw [if_pos ⟨haddr, hs⟩, hl]
          unfold contentCheck contentSpecPrecedence
          rw [h1, hl]
          exact fallbackContent_eq_spec hscalar
        | some c =>
          by_cases hc : c = []
          · subst hc
            have h1 : liveContent scraped row.address = none := by
              unfold liveContent
              rw [if_pos ⟨haddr, hs⟩, hl]
              rfl
            unfold contentCheck contentSpecPrecedence
            rw [h1, hl]
            show fallbackContent (clean_text q) row
              = if ([] : PyStr) = [] then fallbackSpecSide (clean_text q) row
                else isSubstr (clean_text q) (pyClean [])
            rw [if_pos rfl]
            exact fallbackContent_eq_spec hscalar
          · have h1 : liveContent scraped row.address = some c := by
              unfold liveContent
              rw [if_pos ⟨haddr, hs⟩, hl]
              show (if c ≠ [] then some c else none) = some c
              rw [if_pos hc]
            unfold contentCheck contentSpecPrecedence
            rw [h1, hl]
            show (if pyClean c = [] then false else isSubstr (clean_text q) (pyClean c))
              = if c = [] then fallbackSpecSide (clean_text q) row
                else isSubstr (clean_text q) (pyClean c)
            rw [if_neg hc]
            by_cases hcc : pyClean c = []
            · rw [if_pos hcc, hcc, isSubstr_nil_of_ne hq]
            · rw [if_neg hcc]

/-- The crawl row used by the C5 witness: fallback field `"a"` (which
contains the query), no live match. -/
def c5Row : SFRow :=
  ⟨[117], Cell.vnan, Cell.vnan, Cell.vnan, none, none, none, none, none,
   some (Cell.vstr [97])⟩

/-- Witness for C5: the query `"a"`, a page whose resolved live content is
`"b"` (not containing the query) while the fallback field is `"a"`
(containing it) — the equality shows the decision is taken by the live
content. -/
theorem c5_content_precedence_witness :
    ∃ e, analyze_query_in_elements (Cell.vstr [97]) c5Row [([117], some [98])] = some e
      ∧ e.content = contentSpecPrecedence (clean_text (Cell.vstr [97])) c5Row
          [([117], some [98])] :=
  c5_content_precedence (Cell.vstr [97]) c5Row [([117], some [98])] (by decide) (by decide)
    (fun s => by simp [c5Row])

/-! ### Structure of the `generate_scorecard` loops -/

theorem head?_filter_eq_find? {α : Type} (p : α → Bool) :
    ∀ l : List α, (l.filter p).head? = l.find? p := by
  intro l
  induction l with
  | nil => rfl
  | cons a l ih =>
    by_cases h : p a = true
    · rw [List.filter_cons_of_pos h, List.find?_cons_of_pos _ h]
      rfl
    · rw [List.filter_cons_of_neg h, List.find?_cons_of_neg _ h]
      exact ih

/-- `find?` returns the first element satisfying the predicate: everything
before it in the list fails the predicate. -/
theorem find?_first_match {α : Type} (p : α → Bool) :
    ∀ {l : List α} {b : α}, l.find? p = some b →
      p b = true ∧ ∃ l1 l2, l = l1 ++ b :: l2 ∧ ∀ x ∈ l1, p x = false := by
  intro l
  induction l with
  | nil => intro b h; cases h
  | cons a l ih =>
    intro b h
    by_cases ha : p a = true
    · rw [List.find?_cons_of_pos _ ha] at h
      have := Option.some.inj h
      subst this
      exact ⟨ha, [], l, rfl, by simp⟩
    · rw [List.find?_cons_of_neg _ ha] at h
      obtain ⟨hp, l1, l2, rfl, hall⟩ := ih h
      refine ⟨hp, a :: l1, l2, rfl, fun x hx => ?_⟩
      rcases List.mem_cons.1 hx with rfl | hx
      · simp only [Bool.not_eq_true] at ha
        exact ha
      · exact hall x hx

theorem rowsForQuery_eq (sf : List SFRow) (scraped : List (PyStr × Option PyStr))
    (q : PyStr) : ∀ us : List PyStr, rowsForQuery sf scraped q us
      = us.filterMap fun u => (sf.find? fun r => decide (r.address = u)).map
          fun row => ⟨q, u, analyze_query_in_elements (Cell.vstr q) row scraped⟩ := by
  intro us
  induction us with
  | nil => rfl
  | cons u us ih =>
    rw [List.filterMap_cons]
    simp only [rowsForQuery, head?_filter_eq_find?]
    cases hf : sf.find? fun r => decide (r.address = u) with
    | none => exact ih
    | some row =>
      rw [ih]
      rfl

theorem scorecardLoop_eq (gsc : List QueryRecord) (sf : List SFRow)
    (scraped : List (PyStr × Option PyStr)) :
    ∀ qs : List PyStr, scorecardLoop gsc sf scraped qs
      = qs.flatMap fun q => rowsForQuery sf scraped q (queryUrls gsc q) := by
  intro qs
  induction qs with
  | nil => rfl
  | cons q qs ih =>
    rw [List.flatMap_cons, ← ih]
    rfl

/-- C6: with both inputs non-empty, the generated scorecard is exactly one
row per (selected query, first-seen-deduplicated URL) pair for which some
crawl row's address equals the URL (string equality), in the order outer
loop over selected queries (rank order), inner loop over that query's URLs;
the crawl row used is the FIRST matching one (everything before it in the
crawl export has a different address), a pair with no matching crawl row
contributes nothing, and the URLs of each query are distinct and drawn from
that query's own analytics rows. -/
theorem c6_scorecard_structure (gsc : List QueryRecord) (sf : List SFRow)
    (extractor : Option (PyStr → Option PyStr)) (flag : Bool)
    (hg : gsc ≠ []) (hs : sf ≠ []) :
    (generate_scorecard gsc sf extractor flag
      = (top_queries gsc).flatMap fun q => (queryUrls gsc q).filterMap fun u =>
          (sf.find? fun r => decide (r.address = u)).map fun row =>
            ⟨q, u, analyze_query_in_elements (Cell.vstr q) row
              (scrapedOf gsc extractor flag (top_queries gsc))⟩)
    ∧ (∀ (u : PyStr) (row : SFRow), (sf.find? fun r => decide (r.address = u)) = some row →
        row.address = u ∧ ∃ pre post, sf = pre ++ row :: post ∧ ∀ x ∈ pre, x.address ≠ u)
    ∧ (∀ u : PyStr, (sf.find? fun r => decide (r.address = u)) = none →
        ∀ x ∈ sf, x.address ≠ u)
    ∧ ∀ q : PyStr, (queryUrls gsc q).Nodup
        ∧ ∀ u ∈ queryUrls gsc q,
            u ∈ (gsc.filter fun r => decide (r.query = q)).map fun r => r.landing := by
  refine ⟨?_, ?_, ?_, fun q => ⟨pdUnique_nodup _, fun u hu => pdUnique_subset hu⟩⟩
  · unfold generate_scorecard
    rw [if_neg (not_or.2 ⟨hg, hs⟩)]
    rw [scorecardLoop_eq]
    simp only [rowsForQuery_eq]
  · intro u row hf
    obtain ⟨hp, pre, post, heq, hall⟩ := find?_first_match _ hf
    refine ⟨of_decide_eq_true hp, pre, post, heq, fun x hx => ?_⟩
    simpa using hall x hx
  · intro u hf x hx
    simpa using List.find?_eq_none.1 hf x hx

/-- Single-query analytics input for the C6 witness. -/
def c6Gsc : List QueryRecord := [⟨[113], [117], 1, 2⟩]

/-- Single-row crawl input for the C6 witness. -/
def c6Sf : List SFRow :=
  [⟨[117], Cell.vstr [113], Cell.vnan, Cell.vnan, none, none, none, none, none, none⟩]

/-- Witness for C6 at a one-query, one-row input. -/
theorem c6_scorecard_structure_witness :
    generate_scorecard c6Gsc c6Sf none false
      = (top_queries c6Gsc).flatMap fun q => (queryUrls c6Gsc q).filterMap fun u =>
          (c6Sf.find? fun r => decide (r.address = u)).map fun row =>
            ⟨q, u, analyze_query_in_elements (Cell.vstr q) row
              (scrapedOf c6Gsc none false (top_queries c6Gsc))⟩ :=
  (c6_scorecard_structure c6Gsc c6Sf none false (by decide) (by decide)).1

/-- Every row produced by the inner loop carries the loop's query string. -/
theorem rowsForQuery_query_eq {sf : List SFRow} {scraped : List (PyStr × Option PyStr)}
    {q : PyStr} : ∀ {us : List PyStr} {r : ResultRow},
    r ∈ rowsForQuery sf scraped q us → r.query = q := by
  intro us
  induction us with
  | nil => intro r h; cases h
  | cons u us ih =>
    intro r h
    simp only [rowsForQuery] at h
    cases hf : (sf.filter fun rr => decide (rr.address = u)).head? with
    | none =>
      rw [hf] at h
      exact ih h
    | some row =>
      rw [hf] at h
      rcases List.mem_cons.1 h with rfl | h
      · rfl
      · exact ih h

/-- Every row produced by the outer loop carries one of the looped-over
query strings. -/
theorem mem_scorecardLoop {gsc : List QueryRecord} {sf : List SFRow}
    {scraped : List (PyStr × Option PyStr)} : ∀ {qs : List PyStr} {r : ResultRow},
    r ∈ scorecardLoop gsc sf scraped qs → r.query ∈ qs := by
  intro qs
  induction qs with
  | nil => intro r h; cases h
  | cons q qs ih =>
    intro r h
    rcases List.mem_append.1 h with h | h
    · rw [rowsForQuery_query_eq h]
      exact List.mem_cons_self q qs
    · exact List.mem_cons_of_mem q (ih h)

/-- Analytics input for the C10 demonstration: raw query `"Shoes "` (capital
letter, trailing space). -/
def c10Gsc : List QueryRecord := [⟨strN "Shoes ", [117], 1, 1⟩]

/-- Crawl input for the C10 demonstration: the title contains `shoes` only
case-insensitively. -/
def c10Sf : List SFRow :=
  [⟨[117], Cell.vstr (strN "Best Shoes"), Cell.vnan, Cell.vnan, none, none, none,
    none, none, none⟩]

/-- C10: the `Query` value stored in every emitted row is one of the RAW
query strings of the analytics input; and at a concrete input whose raw
query is `"Shoes "` the emitted row keeps the raw spelling (differing from
its normalized form `"shoes"`) while the Title match is still computed on
the normalized query. -/
theorem c10_raw_query :
    (∀ (gsc : List QueryRecord) (sf : List SFRow)
      (extractor : Option (PyStr → Option PyStr)) (flag : Bool) (r : ResultRow),
      r ∈ generate_scorecard gsc sf extractor flag → r.query ∈ gsc.map fun rec => rec.query)
    ∧ generate_scorecard c10Gsc c10Sf none false
        = [⟨strN "Shoes ", [117], some ⟨true, false, false, false, false⟩⟩]
    ∧ strN "Shoes " ≠ clean_text (Cell.vstr (strN "Shoes ")) := by
  refine ⟨?_, by decide, by decide⟩
  intro gsc sf extractor flag r hr
  unfold generate_scorecard at hr
  by_cases hcond : gsc = [] ∨ sf = []
  · rw [if_pos hcond] at hr
    cases hr
  · rw [if_neg hcond] at hr
    exact mem_top_queries (mem_scorecardLoop hr)

/-- Witness for C10: the emitted row's query is a raw input query string. -/
theorem c10_raw_query_witness :
    (⟨strN "Shoes ", [117], some ⟨true, false, false, false, false⟩⟩ : ResultRow).query
      ∈ c10Gsc.map fun rec => rec.query :=
  c10_raw_query.1 c10Gsc c10Sf none false
    ⟨strN "Shoes ", [117], some ⟨true, false, false, false, false⟩⟩ (by decide)

/-- C4: the Metrics Aggregator returns an absent result on the empty row
sequence; on any non-empty sequence of proper MatchRows (all five field
names present, as the spec's MatchRow invariant requires) each field's
coverage is the fraction of rows where that field is true times 100, and
`overall_score` is the unweighted arithmetic mean of the five coverages; and
when the element columns are absent from every row each coverage is absent
and contributes 0 to the mean, making the overall score 0. -/
theorem c4_calculate_metrics :
    calculate_metrics ([] : List ResultRow) = none
    ∧ (∀ rows : List ResultRow, rows ≠ [] → (∀ r ∈ rows, r.elems.isSome = true) →
        ∃ m, calculate_metrics rows = some m
          ∧ m.title_coverage
              = some (((numTrueRows (fun e => e.title) rows : ℚ) / (rows.length : ℚ)) * 100)
          ∧ m.meta_description_coverage
              = some (((numTrueRows (fun e => e.metaDescription) rows : ℚ) / (rows.length : ℚ)) * 100)
          ∧ m.h1_coverage
              = some (((numTrueRows (fun e => e.h1) rows : ℚ) / (rows.length : ℚ)) * 100)
          ∧ m.h2s_coverage
              = some (((numTrueRows (fun e => e.h2s) rows : ℚ) / (rows.length : ℚ)) * 100)
          ∧ m.content_coverage
              = some (((numTrueRows (fun e => e.content) rows : ℚ) / (rows.length : ℚ)) * 100)
          ∧ m.overall_score
              = (((numTrueRows (fun e => e.title) rows : ℚ) / (rows.length : ℚ)) * 100
                + ((numTrueRows (fun e => e.metaDescription) rows : ℚ) / (rows.length : ℚ)) * 100
                + ((numTrueRows (fun e => e.h1) rows : ℚ) / (rows.length : ℚ)) * 100
                + ((numTrueRows (fun e => e.h2s) rows : ℚ) / (rows.length : ℚ)) * 100
                + ((numTrueRows (fun e => e.content) rows : ℚ) / (rows.length : ℚ)) * 100) / 5)
    ∧ (∀ rows : List ResultRow, rows ≠ [] → (∀ r ∈ rows, r.elems = none) →
        ∃ m, calculate_metrics rows = some m
          ∧ m.title_coverage = none ∧ m.meta_description_coverage = none
          ∧ m.h1_coverage = none ∧ m.h2s_coverage = none ∧ m.content_coverage = none
          ∧ m.overall_score = 0) := by
  refine ⟨rfl, ?_, ?_⟩
  · intro rows hne hfull
    have hnum : numElemRows rows = rows.length := by
      unfold numElemRows
      rw [List.filter_eq_self.2 hfull]
    have hpos : ¬ numElemRows rows = 0 := by
      rw [hnum]
      simpa [List.length_eq_zero] using hne
    have hcov : ∀ f : ElemChecks → Bool, coverage f rows
        = some (((numTrueRows f rows : ℚ) / (rows.length : ℚ)) * 100) := by
      intro f
      unfold coverage
      rw [if_neg hpos, hnum]
    refine ⟨⟨(pdUnique (rows.map fun r => r.query)).length,
             (pdUnique (rows.map fun r => r.url)).length,
             coverage (fun e => e.title) rows,
             coverage (fun e => e.metaDescription) rows,
             coverage (fun e => e.h1) rows,
             coverage (fun e => e.h2s) rows,
             coverage (fun e => e.content) rows,
             ((coverage (fun e => e.title) rows).getD 0
              + (coverage (fun e => e.metaDescription) rows).getD 0
              + (coverage (fun e => e.h1) rows).getD 0
              + (coverage (fun e => e.h2s) rows).getD 0
              + (coverage (fun e => e.content) rows).getD 0) / 5⟩,
           ?_, hcov _, hcov _, hcov _, hcov _, hcov _, ?_⟩
    · unfold calculate_metrics
      rw [if_neg hne]
    · show ((coverage (fun e => e.title) rows).getD 0
          + (coverage (fun e => e.metaDescription) rows).getD 0
          + (coverage (fun e => e.h1) rows).getD 0
          + (coverage (fun e => e.h2s) rows).getD 0
          + (coverage (fun e => e.content) rows).getD 0) / 5 = _
      rw [hcov fun e => e.title, hcov fun e => e.metaDescription, hcov fun e => e.h1,
        hcov fun e => e.h2s, hcov fun e => e.content]
      rfl
  · intro rows hne habs
    have hnum : numElemRows rows = 0 := by
      unfold numElemRows
      rw [List.filter_eq_nil_iff.2 fun r hr => by rw [habs r hr]; simp]
      rfl
    have hcov : ∀ f : ElemChecks → Bool, coverage f rows = none := by
      intro f
      unfold coverage
      rw [if_pos hnum]
    refine ⟨⟨(pdUnique (rows.map fun r => r.query)).length,
             (pdUnique (rows.map fun r => r.url)).length,
             coverage (fun e => e.title) rows,
             coverage (fun e => e.metaDescription) rows,
             coverage (fun e => e.h1) rows,
             coverage (fun e => e.h2s) rows,
             coverage (fun e => e.content) rows,
             ((coverage (fun e => e.title) rows).getD 0
              + (coverage (fun e => e.metaDescription) rows).getD 0
              + (coverage (fun e => e.h1) rows).getD 0
              + (coverage (fun e => e.h2s) rows).getD 0
              + (coverage (fun e => e.content) rows).getD 0) / 5⟩,
           ?_, hcov _, hcov _, hcov _, hcov _, hcov _, ?_⟩
    · unfold calculate_metrics
      rw [if_neg hne]
    · show ((coverage (fun e => e.title) rows).getD 0
          + (coverage (fun e => e.metaDescription) rows).getD 0
          + (coverage (fun e => e.h1) rows).getD 0
          + (coverage (fun e => e.h2s) rows).getD 0
          + (coverage (fun e => e.content) rows).getD 0) / 5 = 0
      rw [hcov fun e => e.title, hcov fun e => e.metaDescription, hcov fun e => e.h1,
        hcov fun e => e.h2s, hcov fun e => e.content]
      norm_num

/-- The single proper result row used by the C4 witness. -/
def c4Rows : List ResultRow := [⟨[113], [117], some ⟨true, false, false, false, true⟩⟩]

/-- Witness for C4 on one full row. -/
theorem c4_calculate_metrics_witness :
    ∃ m, calculate_metrics c4Rows = some m
      ∧ m.title_coverage
          = some (((numTrueRows (fun e => e.title) c4Rows : ℚ) / (c4Rows.length : ℚ)) * 100)
      ∧ m.meta_description_coverage
          = some (((numTrueRows (fun e => e.metaDescription) c4Rows : ℚ) / (c4Rows.length : ℚ)) * 100)
      ∧ m.h1_coverage
          = some (((numTrueRows (fun e => e.h1) c4Rows : ℚ) / (c4Rows.length : ℚ)) * 100)
      ∧ m.h2s_coverage
          = some (((numTrueRows (fun e => e.h2s) c4Rows : ℚ) / (c4Rows.length : ℚ)) * 100)
      ∧ m.content_coverage
          = some (((numTrueRows (fun e => e.content) c4Rows : ℚ) / (c4Rows.length : ℚ)) * 100)
      ∧ m.overall_score
          = (((numTrueRows (fun e => e.title) c4Rows : ℚ) / (c4Rows.length : ℚ)) * 100
            + ((numTrueRows (fun e => e.metaDescription) c4Rows : ℚ) / (c4Rows.length : ℚ)) * 100
            + ((numTrueRows (fun e => e.h1) c4Rows : ℚ) / (c4Rows.length : ℚ)) * 100
            + ((numTrueRows (fun e => e.h2s) c4Rows : ℚ) / (c4Rows.length : ℚ)) * 100
            + ((numTrueRows (fun e => e.content) c4Rows : ℚ) / (c4Rows.length : ℚ)) * 100) / 5 :=
  c4_calculate_metrics.2.1 c4Rows (by decide) (by decide)

/-- In the dict built by `batch_extract`, every requested URL is a key and
its value is the extractor's result for it. -/
theorem lookup_batch_extract {f : PyStr → Option PyStr} :
    ∀ {urls : List PyStr} {u : PyStr}, u ∈ urls →
      (batch_extract f urls).lookup u = some (f u) := by
  intro urls
  induction urls with
  | nil => intro u h; cases h
  | cons v urls ih =>
    intro u h
    by_cases huv : u = v
    · subst huv
      simp [batch_extract, List.lookup]
    · rcases List.mem_cons.1 h with rfl | h
      · exact absurd rfl huv
      · simp only [batch_extract, List.map_cons, List.lookup]
        rw [show (u == v) = false by simpa using huv]
        exact ih h

/-- URLs that were never requested are absent from the dict. -/
theorem lookup_batch_extract_not_mem {f : PyStr → Option PyStr} :
    ∀ {urls : List PyStr} {u : PyStr}, u ∉ urls →
      (batch_extract f urls).lookup u = none := by
  intro urls
  induction urls with
  | nil => intro u _; rfl
  | cons v urls ih =>
    intro u h
    have huv : ¬ u = v := fun hh => h (hh ▸ List.mem_cons_self u urls)
    simp only [batch_extract, List.map_cons, List.lookup]
    rw [show (u == v) = false by simpa using huv]
    exact ih fun hh => h (List.mem_cons_of_mem v hh)

/-- C8 (counterexample to the claim as stated): after a failed extraction
the URL is NOT absent from the content map — `batch_extract` keeps it as a
key bound to `None` (`{url: extract(url) for url in urls}` maps every
requested URL). -/
theorem c8_url_key_counterexample :
    ¬ ((batch_extract (fun _ => none) [[117]]).lookup [117] = none) := by decide

/-- C8 (amended): when extraction fails for a URL, the URL remains a key of
the content map but is bound to an absent (`None`) value; every requested
URL is bound to exactly its own extraction result, so one URL's failure
cannot affect another's entry; and for any page record with that address the
Content decision falls back to the crawl export's `Post 1` field. The
embedding is total, mirroring that no error propagates to the caller. -/
theorem c8_resolution_failure (f : PyStr → Option PyStr) (urls : List PyStr)
    (u : PyStr) (hfail : f u = none) :
    (∀ v ∈ urls, (batch_extract f urls).lookup v = some (f v))
    ∧ (u ∈ urls → (batch_extract f urls).lookup u = some none)
    ∧ ∀ (q : Cell) (row : SFRow), clean_text q ≠ [] → row.address = u →
        ∃ e, analyze_query_in_elements q row (batch_extract f urls) = some e
          ∧ e.content = fallbackContent (clean_text q) row := by
  refine ⟨fun v hv => lookup_batch_extract hv,
    fun hu => by rw [lookup_batch_extract hu, hfail], ?_⟩
  intro q row hq haddr
  refine ⟨⟨elemCheck (clean_text q) row.title,
           elemCheck (clean_text q) row.metaDescription,
           elemCheck (clean_text q) row.h1,
           (h2Texts row).any fun t => !t.isEmpty && isSubstr (clean_text q) t,
           contentCheck (clean_text q) row (batch_extract f urls)⟩, ?_, ?_⟩
  · simp only [analyze_query_in_elements]
    rw [if_neg hq]
  · show contentCheck (clean_text q) row (batch_extract f urls)
      = fallbackContent (clean_text q) row
    have hlu : liveContent (batch_extract f urls) row.address = none := by
      unfold liveContent
      by_cases hcond : row.address ≠ [] ∧ batch_extract f urls ≠ []
      · rw [if_pos hcond, haddr]
        by_cases hmem : u ∈ urls
        · rw [lookup_batch_extract hmem, hfail]
        · rw [lookup_batch_extract_not_mem hmem]
      · rw [if_neg hcond]
    unfold contentCheck
    rw [hlu]

/-- The crawl row used by the C8 witness: address `"u"`, fallback field
`"a"`. -/
def c8Row : SFRow :=
  ⟨[117], Cell.vnan, Cell.vnan, Cell.vnan, none, none, none, none, none,
   some (Cell.vstr [97])⟩

/-- Witness for the amended C8: a single URL whose extraction fails. -/
theorem c8_resolution_failure_witness :
    ∃ e, analyze_query_in_elements (Cell.vstr [97]) c8Row
        (batch_extract (fun _ => none) [[117]]) = some e
      ∧ e.content = fallbackContent (clean_text (Cell.vstr [97])) c8Row :=
  (c8_resolution_failure (fun _ => none) [[117]] [117] rfl).2.2 (Cell.vstr [97]) c8Row
    (by decide) rfl

/-- Witness for C7: a crawl row whose second H2 slot is `"A B"` matched
against the query `"b"`. -/
theorem c7_h2_any_witness :
    ∃ e, analyze_query_in_elements (Cell.vstr [98])
        ⟨[117], Cell.vnan, Cell.vnan, Cell.vnan, none,
          some (Cell.vstr (strN "A B")), none, none, none, none⟩ [] = some e
      ∧ (e.h2s = true ↔ ∃ oc ∈ h2Slots ⟨[117], Cell.vnan, Cell.vnan, Cell.vnan, none,
          some (Cell.vstr (strN "A B")), none, none, none, none⟩,
          ∃ c, oc = some c ∧ notna c = true ∧ clean_text c ≠ []
            ∧ clean_text (Cell.vstr [98]) <:+: clean_text c) :=
  c7_h2_any (Cell.vstr [98]) _ [] (by decide)
